import Mathlib

/-
  Verification of the protothread core of this repository
  (src/protothread.h and src/protothread.cpp).

  The C++ macros expand a protothread function into a single switch-based
  dispatch over a resume marker stored in a ProtoState record:

    PROTO_BEGIN    ps->yield = false; switch(ps->state) { case 0:
    PROTO_YIELD    {ps->yield = true; ps->state = L; case L: if (ps->yield) return false;}
    PROTO_SLEEP(t) for (ps->time = t; ps->time > 0; ps->time -= Timer::GetElapsedTime()) PROTO_YIELD;
    PROTO_WAIT(c)  while (!(c)) PROTO_YIELD;
    PROTO_END      {ps->state = L; case L: break;}} return true;

  The shallow embedding below represents a protothread body as the list of
  items written between PROTO_BEGIN and PROTO_END: straight-line code
  segments and the three suspension primitives.  The suspension primitive at
  0-based position i in that list carries the case-label marker i+1 and the
  end label carries marker length+1; this mirrors the line-number markers of
  the source, which are unique per call site and stable across calls.  The
  float accumulator is modelled by exact rationals.  The externally supplied
  Timer::GetElapsedTime() value is passed to each call as the parameter d;
  the macro expansion polls the timer at most once per call (only in the
  for-loop update of a resumed PROTO_SLEEP), so a single value per call is
  faithful.  E is the type of the ambient environment a PROTO_WAIT condition
  may read (it is an arbitrary C expression, re-evaluated on each call), and
  V is the type of the per-instance variables that code segments mutate.
-/

namespace Proto

/-- State record of one protothread instance (class ProtoState in
src/protothread.h): resume marker, float time accumulator, yield flag. -/
@[ext]
structure ProtoState where
  state : Nat
  time  : Rat
  yield : Bool
deriving DecidableEq

/-- The ProtoState constructor: state = 0, time = 0.0f, yield = false. -/
def ProtoState.init : ProtoState := ⟨0, 0, false⟩

/-- One item of a protothread body between PROTO_BEGIN and PROTO_END:
either a straight-line code segment (mutating the instance variables) or
one of the three suspension primitives PROTO_YIELD, PROTO_SLEEP(t),
PROTO_WAIT(c). -/
inductive Op (E V : Type) where
  | seg   (f : V → V)
  | yld
  | sleep (t : Rat)
  | wait  (c : E → V → Bool)

/-- Control flow of a statement inside a C function body: either fall
through to the next statement or exit the function with a boolean result
(an early return). -/
inductive Flow (A : Type) where
  | next : A → Flow A
  | ret  : A → Bool → Flow A
deriving DecidableEq

/-- Execute the body items of a protothread in entry mode (control has
fallen through to absolute position i of the body; n is the total body
length, used for the PROTO_END marker n+1).  Faithful to the expansion:
a PROTO_YIELD sets yield, records its marker and returns false; a
PROTO_SLEEP initialises the accumulator with its duration and suspends
only when the for-condition time > 0 holds; a PROTO_WAIT suspends only
when its condition is false; reaching PROTO_END records the end marker
and breaks out of the switch. -/
def runFrom (env : E) (n : Nat) : List (Op E V) → Nat → ProtoState → V → Flow (ProtoState × V)
  | [], _, ps, v => Flow.next ({ps with state := n + 1}, v)
  | Op.seg f :: rest, i, ps, v => runFrom env n rest (i + 1) ps (f v)
  | Op.yld :: _rest, i, ps, v => Flow.ret ({ps with yield := true, state := i + 1}, v) false
  | Op.sleep t :: rest, i, ps, v =>
      if 0 < t then Flow.ret ({ps with time := t, yield := true, state := i + 1}, v) false
      else runFrom env n rest (i + 1) {ps with time := t} v
  | Op.wait c :: rest, i, ps, v =>
      if c env v then runFrom env n rest (i + 1) ps v
      else Flow.ret ({ps with yield := true, state := i + 1}, v) false

/-- Dispatch of the switch statement on a marker value s.  Marker 0 enters
the body at the top; marker k+1 with k < length jumps to the case label
inside the suspension primitive at position k (for a seg item there is no
label, so the switch matches nothing and control falls out of it); the end
marker length+1 hits the break in PROTO_END, and any other unmatched value
also falls out of the switch.  Resuming inside PROTO_YIELD re-tests the
yield flag; resuming inside PROTO_SLEEP falls to the for-update (the one
Timer::GetElapsedTime() poll, subtracting d) and re-tests time > 0;
resuming inside PROTO_WAIT re-evaluates the condition. -/
def resumeBody (ops : List (Op E V)) (env : E) (d : Rat) (k : Nat) (op : Op E V)
    (ps : ProtoState) (v : V) : Flow (ProtoState × V) :=
  match op with
  | Op.seg _ => Flow.next (ps, v)
  | Op.yld =>
      if ps.yield then Flow.ret (ps, v) false
      else runFrom env ops.length (ops.drop (k + 1)) (k + 1) ps v
  | Op.sleep _ =>
      if ps.yield then Flow.ret (ps, v) false
      else if 0 < ps.time - d then
        Flow.ret ({ps with time := ps.time - d, yield := true, state := k + 1}, v) false
      else runFrom env ops.length (ops.drop (k + 1)) (k + 1) {ps with time := ps.time - d} v
  | Op.wait c =>
      if ps.yield then Flow.ret (ps, v) false
      else if c env v then runFrom env ops.length (ops.drop (k + 1)) (k + 1) ps v
      else Flow.ret ({ps with yield := true, state := k + 1}, v) false

def resumeAt (ops : List (Op E V)) (env : E) (d : Rat) : Nat → ProtoState → V → Flow (ProtoState × V)
  | 0, ps, v => runFrom env ops.length ops 0 ps v
  | k + 1, ps, v =>
      if hk : k < ops.length then resumeBody ops env d k (ops.get ⟨k, hk⟩) ps v
      else Flow.next (ps, v)

/-- The switch statement of PROTO_BEGIN: dispatch on the stored marker. -/
def switchRun (ops : List (Op E V)) (env : E) (d : Rat) (ps : ProtoState) (v : V) : Flow (ProtoState × V) :=
  resumeAt ops env d ps.state ps v

/-- The statement after the switch: PROTO_END ends with return true, so
control that falls out of the switch returns true. -/
def finish : Flow (ProtoState × V) → ProtoState × V × Bool
  | Flow.next (p, w) => (p, w, true)
  | Flow.ret (p, w) b => (p, w, b)

/-- One complete call of a protothread function: PROTO_BEGIN clears the
yield flag, the switch dispatches on the resume marker, and falling out of
the switch returns true. -/
def protoCall (ops : List (Op E V)) (env : E) (d : Rat) (ps : ProtoState) (v : V) : ProtoState × V × Bool :=
  finish (switchRun ops env d {ps with yield := false} v)

/-- One driver tick on an instance: call the function with this tick's
environment and elapsed-time value, returning the updated instance data
and the boolean result of the call. -/
def stepInst (ops : List (Op E V)) (inp : E × Rat) (s : ProtoState × V) : (ProtoState × V) × Bool :=
  ((((protoCall ops inp.1 inp.2 s.1 s.2).1), (protoCall ops inp.1 inp.2 s.1 s.2).2.1),
   (protoCall ops inp.1 inp.2 s.1 s.2).2.2)

/-- Drive an instance through a list of ticks, collecting the boolean
result of every call. -/
def driveAll (ops : List (Op E V)) : List (E × Rat) → ProtoState × V → (ProtoState × V) × List Bool
  | [], s => (s, [])
  | inp :: rest, s =>
      ((driveAll ops rest (stepInst ops inp s).1).1,
       (stepInst ops inp s).2 :: (driveAll ops rest (stepInst ops inp s).1).2)

/-- The canonical body with plain suspension points: the segments of fs
separated by PROTO_YIELDs (n segments, n-1 yields). -/
def yieldBody : List (V → V) → List (Op E V)
  | [] => []
  | [f] => [Op.seg f]
  | f :: g :: fs => Op.seg f :: Op.yld :: yieldBody (g :: fs)

/-- Add c to the resume marker of a state (used to relate a body to the
same body preceded by one segment and one yield, whose case labels sit two
positions later). -/
def shiftSt (c : Nat) (ps : ProtoState) : ProtoState := {ps with state := ps.state + c}

/-- Add c to the resume marker recorded in a flow result. -/
def shiftFlow (c : Nat) : Flow (ProtoState × V) → Flow (ProtoState × V)
  | Flow.next (p, w) => Flow.next (shiftSt c p, w)
  | Flow.ret (p, w) b => Flow.ret (shiftSt c p, w) b

/-- Add c to the resume marker recorded in a call result. -/
def shiftRes (c : Nat) (r : ProtoState × V × Bool) : ProtoState × V × Bool :=
  (shiftSt c r.1, r.2)

/-- Marker values the switch of a given body has no case label for: either
they point at a plain segment item (which contributes no label) or they lie
beyond the end label.  A call arriving with such a marker falls straight
out of the switch to the return true statement. -/
def stuckState (ops : List (Op E V)) : Nat → Prop
  | 0 => False
  | k + 1 => ∀ h : k < ops.length,
      match ops.get ⟨k, h⟩ with
      | Op.seg _ => True
      | _ => False

/-- Run a list of C statements in order; a statement either falls through
to the next one or returns from the function early. -/
def seqRun {A : Type} : List (A → Flow A) → A → Flow A
  | [], a => Flow.next a
  | s :: rest, a =>
      match s a with
      | Flow.next a2 => seqRun rest a2
      | Flow.ret a2 b => Flow.ret a2 b

/-- Per-call setup code placed before PROTO_BEGIN, acting on the instance
variables. -/
def preStmt (pre : V → V) : ProtoState × V → Flow (ProtoState × V) :=
  fun q => Flow.next (q.1, pre q.2)

/-- The first statement of PROTO_BEGIN: clear the yield flag. -/
def beginStmt : ProtoState × V → Flow (ProtoState × V) :=
  fun q => Flow.next ({q.1 with yield := false}, q.2)

/-- The switch statement of PROTO_BEGIN..PROTO_END as one C statement. -/
def switchStmt (ops : List (Op E V)) (env : E) (d : Rat) : ProtoState × V → Flow (ProtoState × V) :=
  fun q => resumeAt ops env d q.1.state q.1 q.2

/-- The return true that PROTO_END places after the switch. -/
def retTrueStmt : ProtoState × V → Flow (ProtoState × V) :=
  fun q => Flow.ret q true

/-- The complete statement list of an expanded protothread function:
user code before PROTO_BEGIN, the clearing of the yield flag, the
dispatch switch, the return true of PROTO_END, and whatever statements
the user wrote after PROTO_END. -/
def protoStmts (pre : V → V) (ops : List (Op E V)) (env : E) (d : Rat)
    (posts : List (ProtoState × V → Flow (ProtoState × V))) :
    List (ProtoState × V → Flow (ProtoState × V)) :=
  preStmt pre :: beginStmt :: switchStmt ops env d :: retTrueStmt :: posts

/-- One call of the whole expanded function, statement by statement. -/
def protoFunFull (pre : V → V) (ops : List (Op E V)) (env : E) (d : Rat)
    (posts : List (ProtoState × V → Flow (ProtoState × V))) (ps : ProtoState) (v : V) :
    Flow (ProtoState × V) :=
  seqRun (protoStmts pre ops env d posts) (ps, v)

/-- Lift a body over variables V to one over V paired with an observation
counter the body never touches. -/
def liftOp : Op E V → Op E (V × Nat)
  | Op.seg f => Op.seg (fun p => (f p.1, p.2))
  | Op.yld => Op.yld
  | Op.sleep t => Op.sleep t
  | Op.wait c => Op.wait (fun e p => c e p.1)

/-- Read the observation counter out of a flow result. -/
def flowCnt : Flow (ProtoState × (V × Nat)) → Nat
  | Flow.next q => q.2.2
  | Flow.ret q _ => q.2.2

/-- Byte-addressed memory with a bump allocator: next is the first free
address, store maps addresses to byte values.  Models the heap that
new char[n] in the ProtoThread constructor draws from. -/
structure Heap where
  next  : Nat
  store : Nat → Nat

/-- Write one byte. -/
def Heap.writeByte (m : Heap) (a b : Nat) : Heap :=
  {m with store := fun x => if x = a then b else m.store x}

/-- new char[sz]: reserve sz fresh addresses and return the first. -/
def Heap.alloc (m : Heap) (sz : Nat) : Nat × Heap :=
  (m.next, {m with next := m.next + sz})

/-- memcpy(dst, src, n): write the n source bytes (read from the memory as
it was before the copy) to dst..dst+n-1. -/
def copyBytes (m : Heap) (dst src : Nat) : Nat → Heap
  | 0 => m
  | k + 1 => (copyBytes m dst src k).writeByte (dst + k) (m.store (src + k))

/-- The n bytes stored at a..a+n-1. -/
def readBytes (m : Heap) (a n : Nat) : List Nat :=
  (List.range n).map fun j => m.store (a + j)

/-- The ProtoThread wrapper object (class ProtoThread): the stored function
pointer and the vars pointer (none models nullptr). -/
structure ProtoThread (F : Type) where
  function : F
  vars     : Option Nat

/-- The ProtoThread constructor (src/protothread.cpp): function = f;
vars = nullptr; if a source pointer is passed, vars = new char[var_size]
followed by memcpy(vars, _vars, var_size). -/
def ProtoThread.construct (f : F) (pv : Option Nat) (var_size : Nat) (m : Heap) :
    ProtoThread F × Heap :=
  match pv with
  | none => ({function := f, vars := none}, m)
  | some p =>
      ({function := f, vars := some (m.alloc var_size).1},
       copyBytes (m.alloc var_size).2 (m.alloc var_size).1 p var_size)

/-- The ticks of one instance inside an interleaved schedule: true entries
drive the first instance, false entries the second. -/
def schedOf (w : Bool) : List (Bool × E × Rat) → List (E × Rat)
  | [] => []
  | q :: rest => if q.1 = w then q.2 :: schedOf w rest else schedOf w rest

/-- Drive two instances of the same body in an arbitrary interleaving,
collecting each instance's own result sequence. -/
def interleaved (ops : List (Op E V)) :
    List (Bool × E × Rat) → ProtoState × V → ProtoState × V →
    ((ProtoState × V) × (ProtoState × V)) × List Bool × List Bool
  | [], sa, sb => ((sa, sb), [], [])
  | (w, e, d) :: rest, sa, sb =>
      if w then
        ((interleaved ops rest (stepInst ops (e, d) sa).1 sb).1,
         (stepInst ops (e, d) sa).2 :: (interleaved ops rest (stepInst ops (e, d) sa).1 sb).2.1,
         (interleaved ops rest (stepInst ops (e, d) sa).1 sb).2.2)
      else
        ((interleaved ops rest sa (stepInst ops (e, d) sb).1).1,
         (interleaved ops rest sa (stepInst ops (e, d) sb).1).2.1,
         (stepInst ops (e, d) sb).2 :: (interleaved ops rest sa (stepInst ops (e, d) sb).1).2.2)

/-- A concrete four-byte heap holding 1, 2, 3, 4 at addresses 0..3 with
allocation frontier 4 (the worked example of the specification). -/
def heap4 : Heap :=
  ⟨4, fun x => if x = 0 then 1 else if x = 1 then 2 else if x = 2 then 3
       else if x = 3 then 4 else 0⟩

/-! Basic facts about the executor. -/

lemma runFrom_state_irrel (env : E) (n : Nat) :
    ∀ (L : List (Op E V)) (i s : Nat) (ps : ProtoState) (v : V),
      runFrom env n L i {ps with state := s} v = runFrom env n L i ps v := by
  intro L
  induction L with
  | nil => intro i s ps v; rfl
  | cons op rest ih =>
      intro i s ps v
      cases op with
      | seg f => exact ih (i + 1) s ps (f v)
      | yld => rfl
      | sleep t =>
          by_cases h : 0 < t
          · simp [runFrom, h]
          · simp only [runFrom, if_neg h]
            exact ih (i + 1) s {ps with time := t} v
      | wait c =>
          by_cases h : c env v
          · simp only [runFrom, if_pos h]
            exact ih (i + 1) s ps v
          · simp [runFrom, h]

lemma runFrom_shift2 (env : E) (m : Nat) :
    ∀ (L : List (Op E V)) (i : Nat) (ps : ProtoState) (v : V),
      runFrom env (m + 2) L (i + 2) ps v = shiftFlow 2 (runFrom env m L i ps v) := by
  intro L
  induction L with
  | nil => intro i ps v; rfl
  | cons op rest ih =>
      intro i ps v
      cases op with
      | seg f => exact ih (i + 1) ps (f v)
      | yld => rfl
      | sleep t =>
          by_cases h : 0 < t
          · simp [runFrom, h, shiftFlow, shiftSt]
          · simp only [runFrom, if_neg h]
            exact ih (i + 1) {ps with time := t} v
      | wait c =>
          by_cases h : c env v
          · simp only [runFrom, if_pos h]
            exact ih (i + 1) ps v
          · simp [runFrom, h, shiftFlow, shiftSt]

lemma runFrom_ret_false (env : E) (n : Nat) :
    ∀ (L : List (Op E V)) (i : Nat) (ps : ProtoState) (v : V) (a : ProtoState × V) (b : Bool),
      runFrom env n L i ps v = Flow.ret a b → b = false := by
  intro L
  induction L with
  | nil => intro i ps v a b h; exact absurd h (by simp [runFrom])
  | cons op rest ih =>
      intro i ps v a b h
      cases op with
      | seg f => exact ih (i + 1) ps (f v) a b h
      | yld =>
          simp only [runFrom] at h
          injection h with h1 h2
          exact h2.symm
      | sleep t =>
          simp only [runFrom] at h
          split at h
          · injection h with h1 h2; exact h2.symm
          · exact ih (i + 1) {ps with time := t} v a b h
      | wait c =>
          simp only [runFrom] at h
          split at h
          · exact ih (i + 1) ps v a b h
          · injection h with h1 h2; exact h2.symm

lemma runFrom_next_inv (env : E) (n : Nat) :
    ∀ (L : List (Op E V)) (i : Nat) (ps : ProtoState) (v : V) (p : ProtoState) (w : V),
      runFrom env n L i ps v = Flow.next (p, w) → p.state = n + 1 ∧ p.yield = ps.yield := by
  intro L
  induction L with
  | nil =>
      intro i ps v p w h
      simp only [runFrom] at h
      injection h with h1
      rw [Prod.mk.injEq] at h1
      rw [← h1.1]
      exact ⟨rfl, rfl⟩
  | cons op rest ih =>
      intro i ps v p w h
      cases op with
      | seg f => exact ih (i + 1) ps (f v) p w h
      | yld => exact absurd h (by simp [runFrom])
      | sleep t =>
          simp only [runFrom] at h
          split at h
          · exact absurd h (by simp)
          · exact ih (i + 1) {ps with time := t} v p w h
      | wait c =>
          simp only [runFrom] at h
          split at h
          · exact ih (i + 1) ps v p w h
          · exact absurd h (by simp)

lemma finish_shift2 (fl : Flow (ProtoState × V)) :
    finish (shiftFlow 2 fl) = shiftRes 2 (finish fl) := by
  cases fl with
  | next q => cases q; rfl
  | ret q b => cases q; rfl

/-- PROTO_BEGIN clears the yield flag, so the incoming value of the flag
never influences a call. -/
lemma call_yield_irrel (ops : List (Op E V)) (env : E) (d : Rat) (ps : ProtoState) (v : V) (b : Bool) :
    protoCall ops env d {ps with yield := b} v = protoCall ops env d ps v := by
  cases ps; rfl

lemma resumeAt_ret_false (ops : List (Op E V)) (env : E) (d : Rat) (s : Nat) (ps : ProtoState)
    (v : V) (a : ProtoState × V) (b : Bool) (h : resumeAt ops env d s ps v = Flow.ret a b) :
    b = false := by
  cases s with
  | zero => exact runFrom_ret_false env ops.length ops 0 ps v a b h
  | succ k =>
      by_cases hk : k < ops.length
      · simp only [resumeAt, dif_pos hk] at h
        cases hget : ops.get ⟨k, hk⟩ with
        | seg f => rw [hget] at h; simp only [resumeBody] at h; exact absurd h (by simp)
        | yld =>
            rw [hget] at h; simp only [resumeBody] at h
            split at h
            · injection h with h1 h2; exact h2.symm
            · exact runFrom_ret_false env ops.length _ _ _ _ a b h
        | sleep t =>
            rw [hget] at h; simp only [resumeBody] at h
            split at h
            · injection h with h1 h2; exact h2.symm
            · split at h
              · injection h with h1 h2; exact h2.symm
              · exact runFrom_ret_false env ops.length _ _ _ _ a b h
        | wait c =>
            rw [hget] at h; simp only [resumeBody] at h
            split at h
            · injection h with h1 h2; exact h2.symm
            · split at h
              · exact runFrom_ret_false env ops.length _ _ _ _ a b h
              · injection h with h1 h2; exact h2.symm
      · simp only [resumeAt, dif_neg hk] at h
        exact absurd h (by simp)

lemma switchRun_next_inv (ops : List (Op E V)) (env : E) (d : Rat) (ps : ProtoState)
    (v : V) (p : ProtoState) (w : V) (h : switchRun ops env d ps v = Flow.next (p, w)) :
    (p.state = ops.length + 1 ∨ stuckState ops p.state) ∧ p.yield = ps.yield := by
  unfold switchRun at h
  rcases hcase : ps.state with _ | k <;> rw [hcase] at h
  · have := runFrom_next_inv env ops.length ops 0 ps v p w h
    exact ⟨Or.inl this.1, this.2⟩
  · by_cases hk : k < ops.length
    · simp only [resumeAt, dif_pos hk] at h
      cases hget : ops.get ⟨k, hk⟩ with
      | seg f =>
          rw [hget] at h; simp only [resumeBody] at h
          injection h with h1
          rw [Prod.mk.injEq] at h1
          rw [← h1.1]
          refine ⟨Or.inr ?_, rfl⟩
          rw [hcase]
          intro h2
          have h3 : ops.get ⟨k, h2⟩ = Op.seg f := hget
          rw [h3]
          trivial
      | yld =>
          rw [hget] at h; simp only [resumeBody] at h
          split at h
          · exact absurd h (by simp)
          · have := runFrom_next_inv env ops.length _ _ _ _ p w h
            exact ⟨Or.inl this.1, this.2⟩
      | sleep t =>
          rw [hget] at h; simp only [resumeBody] at h
          split at h
          · exact absurd h (by simp)
          · split at h
            · exact absurd h (by simp)
            · have := runFrom_next_inv env ops.length _ _ _ _ p w h
              exact ⟨Or.inl this.1, this.2⟩
      | wait c =>
          rw [hget] at h; simp only [resumeBody] at h
          split at h
          · exact absurd h (by simp)
          · split at h
            · have := runFrom_next_inv env ops.length _ _ _ _ p w h
              exact ⟨Or.inl this.1, this.2⟩
            · exact absurd h (by simp)
    · simp only [resumeAt, dif_neg hk] at h
      injection h with h1
      rw [Prod.mk.injEq] at h1
      rw [← h1.1]
      refine ⟨Or.inr ?_, rfl⟩
      rw [hcase]
      intro h2
      exact absurd h2 hk

/-- A call arriving at a marker the switch has no live case label for (the
end label, a segment position, or a junk value) leaves everything unchanged
and returns true. -/
lemma stuck_step (ops : List (Op E V)) (env : E) (d : Rat) (ps : ProtoState) (v : V)
    (hs : ps.state = ops.length + 1 ∨ stuckState ops ps.state) (hy : ps.yield = false) :
    protoCall ops env d ps v = (ps, v, true) := by
  have hps : ({ps with yield := false} : ProtoState) = ps := by
    ext <;> simp [hy]
  unfold protoCall switchRun
  rw [hps]
  rcases hcase : ps.state with _ | k
  · rcases hs with hs | hs
    · omega
    · rw [hcase] at hs; exact absurd hs (by simp [stuckState])
  · by_cases hk : k < ops.length
    · rcases hs with hs | hs
      · omega
      · rw [hcase] at hs
        have hseg := hs hk
        simp only [resumeAt, dif_pos hk]
        cases hget : ops.get ⟨k, hk⟩ with
        | seg f => rfl
        | yld => rw [hget] at hseg; exact absurd hseg (by simp)
        | sleep t => rw [hget] at hseg; exact absurd hseg (by simp)
        | wait c => rw [hget] at hseg; exact absurd hseg (by simp)
    · simp only [resumeAt, dif_neg hk]
      rfl

lemma protoCall_true_stuck (ops : List (Op E V)) (env : E) (d : Rat) (ps : ProtoState) (v : V)
    (h : (protoCall ops env d ps v).2.2 = true) :
    ((protoCall ops env d ps v).1.state = ops.length + 1
       ∨ stuckState ops (protoCall ops env d ps v).1.state)
    ∧ (protoCall ops env d ps v).1.yield = false := by
  unfold protoCall at h ⊢
  cases hsw : switchRun ops env d {ps with yield := false} v with
  | ret a b =>
      have hb := resumeAt_ret_false ops env d _ _ v a b hsw
      rw [hsw] at h
      subst hb
      obtain ⟨p, w⟩ := a
      simp [finish] at h
  | next q =>
      obtain ⟨p, w⟩ := q
      have hinv := switchRun_next_inv ops env d _ v p w hsw
      simp only [finish]
      exact ⟨hinv.1, hinv.2⟩

lemma driveAll_stuck (ops : List (Op E V)) (q : ProtoState)
    (hq : q.state = ops.length + 1 ∨ stuckState ops q.state) (hy : q.yield = false) :
    ∀ (inputs : List (E × Rat)) (w : V),
      driveAll ops inputs (q, w) = ((q, w), List.replicate inputs.length true) := by
  intro inputs
  induction inputs with
  | nil => intro w; rfl
  | cons inp rest ih =>
      intro w
      have hstep : stepInst ops inp (q, w) = ((q, w), true) := by
        simp [stepInst, stuck_step ops inp.1 inp.2 q w hq hy]
      simp [driveAll, hstep, ih, List.replicate_succ]

lemma resumeAt_succ (ops : List (Op E V)) (env : E) (d : Rat) (k : Nat) (ps : ProtoState) (v : V) :
    resumeAt ops env d (k + 1) ps v
      = if hk : k < ops.length then resumeBody ops env d k (ops.get ⟨k, hk⟩) ps v
        else Flow.next (ps, v) := rfl

/-- Prefixing a body with one segment and one yield shifts every case label
by two: resuming the longer body at marker s+2 behaves exactly like
resuming the shorter body at marker s, with all recorded markers moved up
by two. -/
lemma resumeAt_shift (f0 : V → V) (tail : List (Op E V)) (env : E) (d : Rat)
    (s : Nat) (ps : ProtoState) (v : V) (hy : ps.yield = false) :
    resumeAt (Op.seg f0 :: Op.yld :: tail) env d (s + 2) (shiftSt 2 ps) v
      = shiftFlow 2 (resumeAt tail env d s ps v) := by
  have hlen : (Op.seg f0 :: Op.yld :: tail).length = tail.length + 2 := by simp
  cases s with
  | zero =>
      have hk : 1 < (Op.seg f0 :: Op.yld :: tail).length := by simp
      rw [show (0 + 2 : Nat) = 1 + 1 from rfl, resumeAt_succ, dif_pos hk]
      have hget : (Op.seg f0 :: Op.yld :: tail).get ⟨1, hk⟩ = Op.yld := rfl
      rw [hget]
      simp only [resumeBody]
      rw [if_neg (by simp [shiftSt, hy])]
      show runFrom env (Op.seg f0 :: Op.yld :: tail).length tail (0 + 2) (shiftSt 2 ps) v = _
      rw [hlen]
      rw [show shiftSt 2 ps = {ps with state := ps.state + 2} from rfl]
      rw [runFrom_state_irrel, runFrom_shift2]
      rfl
  | succ s =>
      rw [show (s + 1 + 2 : Nat) = (s + 2) + 1 from rfl, resumeAt_succ, resumeAt_succ]
      by_cases hk : s < tail.length
      · have hk2 : s + 2 < (Op.seg f0 :: Op.yld :: tail).length := by
          rw [hlen]; omega
        rw [dif_pos hk2, dif_pos hk]
        have hget : (Op.seg f0 :: Op.yld :: tail).get ⟨s + 2, hk2⟩ = tail.get ⟨s, hk⟩ := rfl
        rw [hget]
        cases hop : tail.get ⟨s, hk⟩ with
        | seg f => rfl
        | yld =>
            simp only [resumeBody]
            rw [if_neg (by simp [shiftSt, hy]), if_neg (by simp [hy])]
            show runFrom env (Op.seg f0 :: Op.yld :: tail).length (tail.drop (s + 1))
                ((s + 1) + 2) (shiftSt 2 ps) v = _
            rw [hlen]
            rw [show shiftSt 2 ps = {ps with state := ps.state + 2} from rfl]
            rw [runFrom_state_irrel, runFrom_shift2]
        | sleep t =>
            simp only [resumeBody]
            rw [if_neg (show ¬((shiftSt 2 ps).yield = true) by simp [shiftSt, hy]),
                if_neg (show ¬(ps.yield = true) by simp [hy])]
            have htime : (shiftSt 2 ps).time = ps.time := rfl
            rw [htime]
            by_cases ht : 0 < ps.time - d
            · rw [if_pos ht, if_pos ht]; rfl
            · rw [if_neg ht, if_neg ht]
              show runFrom env (Op.seg f0 :: Op.yld :: tail).length (tail.drop (s + 1))
                  ((s + 1) + 2) {shiftSt 2 ps with time := ps.time - d} v = _
              rw [hlen]
              rw [show ({shiftSt 2 ps with time := ps.time - d} : ProtoState)
                    = {({ps with time := ps.time - d} : ProtoState) with
                        state := ({ps with time := ps.time - d} : ProtoState).state + 2} from rfl]
              rw [runFrom_state_irrel, runFrom_shift2]
        | wait c =>
            simp only [resumeBody]
            rw [if_neg (show ¬((shiftSt 2 ps).yield = true) by simp [shiftSt, hy]),
                if_neg (show ¬(ps.yield = true) by simp [hy])]
            by_cases hc : c env v
            · rw [if_pos hc, if_pos hc]
              show runFrom env (Op.seg f0 :: Op.yld :: tail).length (tail.drop (s + 1))
                  ((s + 1) + 2) (shiftSt 2 ps) v = _
              rw [hlen]
              rw [show shiftSt 2 ps = {ps with state := ps.state + 2} from rfl]
              rw [runFrom_state_irrel, runFrom_shift2]
            · rw [if_neg hc, if_neg hc]; rfl
      · have hk2 : ¬(s + 2 < (Op.seg f0 :: Op.yld :: tail).length) := by
          rw [hlen]; omega
        rw [dif_neg hk2, dif_neg hk]
        rfl

lemma protoCall_shift (f0 : V → V) (tail : List (Op E V)) (env : E) (d : Rat)
    (ps : ProtoState) (v : V) :
    protoCall (Op.seg f0 :: Op.yld :: tail) env d (shiftSt 2 ps) v
      = shiftRes 2 (protoCall tail env d ps v) := by
  unfold protoCall switchRun
  rw [show ({shiftSt 2 ps with yield := false} : ProtoState)
        = shiftSt 2 {ps with yield := false} from rfl]
  rw [show (shiftSt 2 {ps with yield := false}).state
        = ({ps with yield := false} : ProtoState).state + 2 from rfl]
  rw [resumeAt_shift f0 tail env d _ _ v rfl, finish_shift2]

lemma driveAll_shift (f0 : V → V) (tail : List (Op E V)) :
    ∀ (inputs : List (E × Rat)) (ps : ProtoState) (v : V),
      driveAll (Op.seg f0 :: Op.yld :: tail) inputs (shiftSt 2 ps, v)
        = ((shiftSt 2 (driveAll tail inputs (ps, v)).1.1, (driveAll tail inputs (ps, v)).1.2),
           (driveAll tail inputs (ps, v)).2) := by
  intro inputs
  induction inputs with
  | nil => intro ps v; rfl
  | cons inp rest ih =>
      intro ps v
      have hstep : stepInst (Op.seg f0 :: Op.yld :: tail) inp (shiftSt 2 ps, v)
          = ((shiftSt 2 (stepInst tail inp (ps, v)).1.1, (stepInst tail inp (ps, v)).1.2),
             (stepInst tail inp (ps, v)).2) := by
        simp [stepInst, protoCall_shift, shiftRes]
      simp [driveAll, hstep, ih]

/-- Driving the canonical all-yield body k times from a fresh marker: every
call before the last segment suspends with result false after running
exactly the next segment, the call that runs the last segment returns true,
and the marker after k calls is the label of the k-th yield (or the end
label). -/
lemma yieldBody_drive (env : E) (d : Rat) :
    ∀ (fs : List (V → V)) (k : Nat) (b : Bool) (v0 : V), fs ≠ [] → 1 ≤ k → k ≤ fs.length →
      driveAll (yieldBody fs) (List.replicate k (env, d)) (⟨0, 0, b⟩, v0)
        = ((⟨2 * k, 0, decide (k ≠ fs.length)⟩, (fs.take k).foldl (fun v f => f v) v0),
           if k = fs.length then List.replicate (k - 1) false ++ [true]
           else List.replicate k false) := by
  intro fs
  induction fs with
  | nil => intro k b v0 hne _ _; exact absurd rfl hne
  | cons f rest ih =>
      intro k b v0 _ hk1 hk2
      cases rest with
      | nil =>
          have hk : k = 1 := by
            simp only [List.length_cons, List.length_nil] at hk2
            omega
          subst hk
          rfl
      | cons g rest' =>
          obtain ⟨k', rfl⟩ : ∃ k', k = k' + 1 := ⟨k - 1, by omega⟩
          have hfirst : stepInst (yieldBody (f :: g :: rest')) (env, d) ((⟨0, 0, b⟩ : ProtoState), v0)
              = ((⟨2, 0, true⟩, f v0), false) := rfl
          have hlen : (f :: g :: rest').length = (g :: rest').length + 1 := rfl
          rw [List.replicate_succ]
          simp only [driveAll, hfirst]
          cases k' with
          | zero =>
              simp only [List.replicate, driveAll]
              have h1 : (decide (0 + 1 ≠ (f :: g :: rest').length)) = true := by
                simp [hlen]
              rw [if_neg (by simp [hlen]), h1]
              rfl
          | succ j =>
              have hsh : ((⟨2, 0, true⟩ : ProtoState), f v0)
                  = (shiftSt 2 ⟨0, 0, true⟩, f v0) := rfl
              rw [hsh, show yieldBody (f :: g :: rest') = Op.seg f :: Op.yld :: yieldBody (g :: rest') from rfl]
              rw [driveAll_shift]
              rw [ih (j + 1) true (f v0) (by simp) (by omega) (by
                    simp only [List.length_cons] at hk2 ⊢
                    omega)]
              have hfold : ((g :: rest').take (j + 1)).foldl (fun v f => f v) (f v0)
                  = ((f :: g :: rest').take (j + 1 + 1)).foldl (fun v f => f v) v0 := rfl
              have hst : shiftSt 2 (⟨2 * (j + 1), 0, decide (j + 1 ≠ (g :: rest').length)⟩ : ProtoState)
                  = ⟨2 * (j + 1 + 1), 0, decide (j + 1 + 1 ≠ (f :: g :: rest').length)⟩ := by
                have h2 : 2 * (j + 1) + 2 = 2 * (j + 1 + 1) := by ring
                have h3 : (decide (j + 1 ≠ (g :: rest').length))
                    = decide (j + 1 + 1 ≠ (f :: g :: rest').length) := by
                  simp only [List.length_cons]
                  rcases eq_or_ne (j + 1) (rest'.length + 1) with h | h <;> simp [h]
                simp only [shiftSt, h3]
                ext <;> simp [h2]
              rw [hfold, hst]
              by_cases hkl : j + 1 + 1 = (f :: g :: rest').length
              · have hkl' : j + 1 = (g :: rest').length := by
                  simp only [List.length_cons] at hkl ⊢
                  omega
                rw [if_pos hkl, if_pos hkl']
                simp [List.replicate_succ]
              · have hkl' : ¬(j + 1 = (g :: rest').length) := by
                  simp only [List.length_cons] at hkl ⊢
                  omega
                rw [if_neg hkl, if_neg hkl']
                simp [List.replicate_succ]

/-! Behaviour of a call that resumes at a PROTO_WAIT or PROTO_SLEEP label. -/

lemma wait_suspend_call (ops : List (Op E V)) (c : E → V → Bool) (i : Nat)
    (hk : i < ops.length) (hop : ops.get ⟨i, hk⟩ = Op.wait c)
    (env : E) (d : Rat) (ps : ProtoState) (v : V) (hst : ps.state = i + 1)
    (hc : c env v = false) :
    protoCall ops env d ps v = ({ps with yield := true}, v, false) := by
  unfold protoCall switchRun
  rw [show ({ps with yield := false} : ProtoState).state = ps.state from rfl, hst]
  rw [resumeAt_succ, dif_pos hk, hop]
  simp only [resumeBody]
  rw [if_neg (show ¬(({ps with yield := false} : ProtoState).yield = true) by simp)]
  rw [if_neg (show ¬(c env v = true) by simp [hc])]
  have h2 : ({({ps with yield := false} : ProtoState) with yield := true, state := i + 1} : ProtoState)
      = {ps with yield := true} := by
    ext <;> simp [hst]
  rw [h2]
  rfl

lemma wait_proceed_call (ops : List (Op E V)) (c : E → V → Bool) (i : Nat)
    (hk : i < ops.length) (hop : ops.get ⟨i, hk⟩ = Op.wait c)
    (env : E) (d : Rat) (ps : ProtoState) (v : V) (hst : ps.state = i + 1)
    (hc : c env v = true) :
    protoCall ops env d ps v
      = finish (runFrom env ops.length (ops.drop (i + 1)) (i + 1) {ps with yield := false} v) := by
  unfold protoCall switchRun
  rw [show ({ps with yield := false} : ProtoState).state = ps.state from rfl, hst]
  rw [resumeAt_succ, dif_pos hk, hop]
  simp only [resumeBody]
  rw [if_neg (show ¬(({ps with yield := false} : ProtoState).yield = true) by simp)]
  rw [if_pos hc]

lemma sleep_suspend_call (ops : List (Op E V)) (i : Nat) (t : Rat)
    (hk : i < ops.length) (hop : ops.get ⟨i, hk⟩ = Op.sleep t)
    (env : E) (d : Rat) (ps : ProtoState) (v : V) (hst : ps.state = i + 1)
    (ht : 0 < ps.time - d) :
    protoCall ops env d ps v = ({ps with yield := true, time := ps.time - d}, v, false) := by
  unfold protoCall switchRun
  rw [show ({ps with yield := false} : ProtoState).state = ps.state from rfl, hst]
  rw [resumeAt_succ, dif_pos hk, hop]
  simp only [resumeBody]
  rw [if_neg (show ¬(({ps with yield := false} : ProtoState).yield = true) by simp)]
  rw [if_pos (show 0 < ({ps with yield := false} : ProtoState).time - d from ht)]
  have h2 : ({({ps with yield := false} : ProtoState) with
                time := ({ps with yield := false} : ProtoState).time - d,
                yield := true, state := i + 1} : ProtoState)
      = {ps with yield := true, time := ps.time - d} := by
    ext <;> simp [hst]
  rw [h2]
  rfl

lemma sleep_proceed_call (ops : List (Op E V)) (i : Nat) (t : Rat)
    (hk : i < ops.length) (hop : ops.get ⟨i, hk⟩ = Op.sleep t)
    (env : E) (d : Rat) (ps : ProtoState) (v : V) (hst : ps.state = i + 1)
    (ht : ¬(0 < ps.time - d)) :
    protoCall ops env d ps v
      = finish (runFrom env ops.length (ops.drop (i + 1)) (i + 1)
          {ps with yield := false, time := ps.time - d} v) := by
  unfold protoCall switchRun
  rw [show ({ps with yield := false} : ProtoState).state = ps.state from rfl, hst]
  rw [resumeAt_succ, dif_pos hk, hop]
  simp only [resumeBody]
  rw [if_neg (show ¬(({ps with yield := false} : ProtoState).yield = true) by simp)]
  rw [if_neg (show ¬(0 < ({ps with yield := false} : ProtoState).time - d) from ht)]

/-- A wait whose condition stays false across a sequence of calls suspends
on every one of those calls, leaving the marker at the wait and the
variables untouched. -/
lemma wait_spin (ops : List (Op E V)) (c : E → V → Bool) (i : Nat)
    (hk : i < ops.length) (hop : ops.get ⟨i, hk⟩ = Op.wait c) (d : Rat) (v : V) :
    ∀ (es : List E) (ps : ProtoState), ps.state = i + 1 → (∀ e ∈ es, c e v = false) →
      driveAll ops (es.map fun e => (e, d)) (ps, v)
        = ((if es.isEmpty then ps else {ps with yield := true}, v),
           List.replicate es.length false) := by
  intro es
  induction es with
  | nil => intro ps _ _; rfl
  | cons e es ih =>
      intro ps hst hfalse
      have hstep : stepInst ops (e, d) (ps, v) = (({ps with yield := true}, v), false) := by
        simp [stepInst, wait_suspend_call ops c i hk hop e d ps v hst (hfalse e (by simp))]
      simp only [List.map_cons, driveAll, hstep]
      rw [ih {ps with yield := true} hst (fun e2 he2 => hfalse e2 (by simp [he2]))]
      cases es with
      | nil => simp
      | cons e2 es2 => simp [List.replicate_succ]

/-- A sleep whose remaining time stays positive across a sequence of polls
suspends on every one of those calls, subtracting each poll from the
accumulator and leaving the marker at the sleep. -/
lemma sleep_spin (ops : List (Op E V)) (i : Nat) (t : Rat)
    (hk : i < ops.length) (hop : ops.get ⟨i, hk⟩ = Op.sleep t) (env : E) (v : V) :
    ∀ (ds : List Rat) (ps : ProtoState), ps.state = i + 1 →
      (∀ k, 1 ≤ k → k ≤ ds.length → (ds.take k).sum < ps.time) →
      driveAll ops (ds.map fun x => (env, x)) (ps, v)
        = ((if ds.isEmpty then ps else {ps with yield := true, time := ps.time - ds.sum}, v),
           List.replicate ds.length false) := by
  intro ds
  induction ds with
  | nil => intro ps _ _; rfl
  | cons x ds ih =>
      intro ps hst hsum
      have hx : 0 < ps.time - x := by
        have h1 := hsum 1 (by omega) (by simp)
        simp at h1
        linarith
      have hstep : stepInst ops (env, x) (ps, v)
          = (({ps with yield := true, time := ps.time - x}, v), false) := by
        simp [stepInst, sleep_suspend_call ops i t hk hop env x ps v hst hx]
      simp only [List.map_cons, driveAll, hstep]
      rw [ih {ps with yield := true, time := ps.time - x} hst ?_]
      rotate_left
      · intro k hk1 hk2
        have h1 := hsum (k + 1) (by omega) (by simp; omega)
        simp only [List.take_succ_cons, List.sum_cons] at h1
        show (ds.take k).sum < ({ps with yield := true, time := ps.time - x} : ProtoState).time
        show (ds.take k).sum < ps.time - x
        linarith
      cases ds with
      | nil => simp
      | cons y ds2 =>
          have hfin : ({({ps with yield := true, time := ps.time - x} : ProtoState) with
                         yield := true,
                         time := ({ps with yield := true, time := ps.time - x} : ProtoState).time
                                   - (y :: ds2).sum} : ProtoState)
              = {ps with yield := true, time := ps.time - (x :: y :: ds2).sum} := by
            ext
            · simp
            · simp only [List.sum_cons]
              ring
            · simp
          simp only [List.isEmpty_cons, if_neg]
          rw [hfin]
          simp [List.replicate_succ]

/-! The body never touches the lifted observation counter. -/

lemma runFrom_lift_cnt (env : E) :
    ∀ (L : List (Op E V)) (n i : Nat) (ps : ProtoState) (w : V) (c : Nat),
      flowCnt (runFrom env n (L.map liftOp) i ps (w, c)) = c := by
  intro L
  induction L with
  | nil => intro n i ps w c; rfl
  | cons op rest ih =>
      intro n i ps w c
      cases op with
      | seg f => exact ih n (i + 1) ps (f w) c
      | yld => rfl
      | sleep t =>
          simp only [List.map_cons, liftOp, runFrom]
          split
          · rfl
          · exact ih n (i + 1) {ps with time := t} w c
      | wait cc =>
          simp only [List.map_cons, liftOp, runFrom]
          split
          · exact ih n (i + 1) ps w c
          · rfl

lemma resumeAt_lift_cnt (ops : List (Op E V)) (env : E) (d : Rat) :
    ∀ (s : Nat) (ps : ProtoState) (w : V) (c : Nat),
      flowCnt (resumeAt (ops.map liftOp) env d s ps (w, c)) = c := by
  intro s ps w c
  cases s with
  | zero => exact runFrom_lift_cnt env ops _ 0 ps w c
  | succ k =>
      rw [resumeAt_succ]
      by_cases hk : k < (ops.map liftOp).length
      · rw [dif_pos hk]
        have hk' : k < ops.length := by simpa using hk
        rw [List.get_map]
        have hdrop : (ops.map liftOp).drop (k + 1) = (ops.drop (k + 1)).map liftOp :=
          (List.map_drop liftOp ops (k + 1)).symm
        cases hop : ops.get ⟨k, by simpa using hk⟩ with
        | seg f => rfl
        | yld =>
            simp only [liftOp, resumeBody]
            split
            · rfl
            · rw [hdrop]; exact runFrom_lift_cnt env (ops.drop (k + 1)) _ (k + 1) ps w c
        | sleep t =>
            simp only [liftOp, resumeBody]
            split
            · rfl
            · split
              · rfl
              · rw [hdrop]
                exact runFrom_lift_cnt env (ops.drop (k + 1)) _ (k + 1) _ w c
        | wait cc =>
            simp only [liftOp, resumeBody]
            split
            · rfl
            · split
              · rw [hdrop]
                exact runFrom_lift_cnt env (ops.drop (k + 1)) _ (k + 1) ps w c
              · rfl
      · rw [dif_neg hk]
        rfl

/-! Statement sequences with early returns. -/

lemma seqRun_append_ret {A : Type} :
    ∀ (l posts : List (A → Flow A)) (a : A) (a2 : A) (b : Bool),
      seqRun l a = Flow.ret a2 b → seqRun (l ++ posts) a = Flow.ret a2 b := by
  intro l
  induction l with
  | nil => intro posts a a2 b h; exact absurd h (by simp [seqRun])
  | cons s rest ih =>
      intro posts a a2 b h
      simp only [seqRun, List.cons_append] at h ⊢
      cases hs : s a with
      | next a3 => rw [hs] at h; exact ih posts a3 a2 b h
      | ret a3 b3 => rw [hs] at h; exact h

/-- The frame placed by PROTO_BEGIN and PROTO_END always returns before
reaching any statement written after PROTO_END. -/
lemma protoStmts_ret (pre : V → V) (ops : List (Op E V)) (env : E) (d : Rat)
    (ps : ProtoState) (v : V) :
    ∃ a b, seqRun (protoStmts pre ops env d []) (ps, v) = Flow.ret a b := by
  simp only [protoStmts, seqRun, preStmt, beginStmt, switchStmt, retTrueStmt]
  cases hres : resumeAt ops env d ({ps with yield := false}).state {ps with yield := false} (pre v) with
  | next a2 => exact ⟨a2, true, rfl⟩
  | ret a2 b2 => exact ⟨a2, b2, rfl⟩

lemma protoFun_posts_dead (pre : V → V) (ops : List (Op E V)) (env : E) (d : Rat)
    (posts : List (ProtoState × V → Flow (ProtoState × V))) (ps : ProtoState) (v : V) :
    protoFunFull pre ops env d posts ps v = protoFunFull pre ops env d [] ps v := by
  obtain ⟨a, b, h⟩ := protoStmts_ret pre ops env d ps v
  have hsplit : protoStmts pre ops env d posts = protoStmts pre ops env d [] ++ posts := rfl
  unfold protoFunFull
  rw [hsplit, seqRun_append_ret _ posts _ a b h, h]

/-- The statement-level model agrees with protoCall when there is no
pre-BEGIN and no post-END code. -/
lemma protoFun_eq_protoCall (ops : List (Op E V)) (env : E) (d : Rat) (ps : ProtoState) (v : V) :
    protoFunFull (fun x => x) ops env d [] ps v
      = Flow.ret ((protoCall ops env d ps v).1, (protoCall ops env d ps v).2.1)
          (protoCall ops env d ps v).2.2 := by
  unfold protoFunFull protoCall switchRun
  simp only [protoStmts, seqRun, preStmt, beginStmt, switchStmt, retTrueStmt]
  cases hres : resumeAt ops env d ({ps with yield := false}).state {ps with yield := false} v with
  | next a2 => cases a2; rfl
  | ret a2 b2 => cases a2; rfl

/-! Facts about the byte-copying constructor. -/

lemma copyBytes_next (m : Heap) (dst src : Nat) :
    ∀ n, (copyBytes m dst src n).next = m.next := by
  intro n
  induction n with
  | zero => rfl
  | succ k ih => simp [copyBytes, Heap.writeByte, ih]

lemma copyBytes_store (m : Heap) (dst src : Nat) :
    ∀ (n x : Nat), (copyBytes m dst src n).store x
      = if dst ≤ x ∧ x < dst + n then m.store (src + (x - dst)) else m.store x := by
  intro n
  induction n with
  | zero =>
      intro x
      rw [if_neg (by omega)]
      rfl
  | succ k ih =>
      intro x
      simp only [copyBytes, Heap.writeByte]
      by_cases hx : x = dst + k
      · rw [if_pos hx, if_pos (by omega)]
        subst hx
        congr 1
        omega
      · rw [if_neg hx, ih x]
        by_cases h2 : dst ≤ x ∧ x < dst + k
        · rw [if_pos h2, if_pos ⟨h2.1, by omega⟩]
        · rw [if_neg h2, if_neg (by omega)]

lemma readBytes_copy (m : Heap) (dst src n : Nat) :
    readBytes (copyBytes m dst src n) dst n = readBytes m src n := by
  unfold readBytes
  refine List.map_congr_left ?_
  intro j hj
  rw [List.mem_range] at hj
  rw [copyBytes_store, if_pos (by omega)]
  congr 1
  omega

lemma readBytes_copy_outside (m : Heap) (dst src n a k : Nat)
    (hdis : a + k ≤ dst ∨ dst + n ≤ a) :
    readBytes (copyBytes m dst src n) a k = readBytes m a k := by
  unfold readBytes
  refine List.map_congr_left ?_
  intro j hj
  rw [List.mem_range] at hj
  rw [copyBytes_store, if_neg (by omega)]

lemma readBytes_write_outside (m : Heap) (w b a k : Nat) (hdis : w < a ∨ a + k ≤ w) :
    readBytes (m.writeByte w b) a k = readBytes m a k := by
  unfold readBytes Heap.writeByte
  refine List.map_congr_left ?_
  intro j hj
  rw [List.mem_range] at hj
  simp only
  rw [if_neg (by omega)]

lemma readBytes_store_congr (m1 m2 : Heap) (a n : Nat)
    (h : ∀ x, a ≤ x → x < a + n → m1.store x = m2.store x) :
    readBytes m1 a n = readBytes m2 a n := by
  unfold readBytes
  refine List.map_congr_left ?_
  intro j hj
  rw [List.mem_range] at hj
  exact h (a + j) (by omega) (by omega)

/-! Two instances driven in an arbitrary interleaving behave exactly as
each would when driven alone on its own subsequence of ticks. -/

lemma interleaved_indep (ops : List (Op E V)) :
    ∀ (sched : List (Bool × E × Rat)) (sa sb : ProtoState × V),
      interleaved ops sched sa sb
        = (((driveAll ops (schedOf true sched) sa).1, (driveAll ops (schedOf false sched) sb).1),
           (driveAll ops (schedOf true sched) sa).2, (driveAll ops (schedOf false sched) sb).2) := by
  intro sched
  induction sched with
  | nil => intro sa sb; rfl
  | cons q rest ih =>
      intro sa sb
      obtain ⟨w, e, d⟩ := q
      cases w with
      | true => simp [interleaved, ih, schedOf, driveAll]
      | false => simp [interleaved, ih, schedOf, driveAll]

/-! Claim theorems. -/

/-- Claim C1, resume correctness: for a body whose suspension points are n
plain yields separating the segments fs (so fs lists n+1 segments), driven
on a fresh state, each of the first n calls returns false and runs exactly
the next segment (after k calls the variables carry the left fold of the
first k segments, each applied once and in order, and the marker sits at
the k-th yield), the (n+1)-th call runs the last segment and returns true;
in particular the body begin-yield-yield-end answers false, false, true,
true on its first four calls. -/
theorem resume_correct {E V : Type} (fs : List (V → V)) (hne : fs ≠ [])
    (env : E) (d : Rat) (v0 : V) :
    (∀ k, 1 ≤ k → k < fs.length →
       driveAll (yieldBody fs) (List.replicate k (env, d)) (⟨0, 0, false⟩, v0)
         = ((⟨2 * k, 0, true⟩, (fs.take k).foldl (fun v f => f v) v0),
            List.replicate k false))
    ∧ driveAll (yieldBody fs) (List.replicate fs.length (env, d)) (⟨0, 0, false⟩, v0)
         = ((⟨2 * fs.length, 0, false⟩, fs.foldl (fun v f => f v) v0),
            List.replicate (fs.length - 1) false ++ [true])
    ∧ (driveAll (yieldBody [fun x => x, fun x => x, fun x => x] : List (Op Unit Unit))
         (List.replicate 4 ((), 0)) (⟨0, 0, false⟩, ())).2 = [false, false, true, true] := by
  refine ⟨?_, ?_, by decide⟩
  · intro k hk1 hk2
    have h := yieldBody_drive env d fs k false v0 hne hk1 (le_of_lt hk2)
    rw [h, if_neg (Nat.ne_of_lt hk2)]
    simp [Nat.ne_of_lt hk2]
  · have hlen : 1 ≤ fs.length := List.length_pos.mpr hne
    have h := yieldBody_drive env d fs fs.length false v0 hne hlen le_rfl
    rw [h, if_pos rfl]
    simp

/-- Witness for C1 at the concrete two-segment body with segments n+1 and
2n driven on variables 0. -/
theorem resume_correct_w :
    (([fun n => n + 1, fun n => 2 * n] : List (Nat → Nat)) ≠ [])
    ∧ ((∀ k, 1 ≤ k → k < ([fun n => n + 1, fun n => 2 * n] : List (Nat → Nat)).length →
         driveAll (yieldBody [fun n => n + 1, fun n => 2 * n])
             (List.replicate k (((), (0 : Rat)))) (⟨0, 0, false⟩, 0)
           = ((⟨2 * k, 0, true⟩,
               (([fun n => n + 1, fun n => 2 * n] : List (Nat → Nat)).take k).foldl
                 (fun v f => f v) 0),
              List.replicate k false))
       ∧ driveAll (yieldBody [fun n => n + 1, fun n => 2 * n])
             (List.replicate ([fun n => n + 1, fun n => 2 * n] : List (Nat → Nat)).length
               (((), (0 : Rat)))) (⟨0, 0, false⟩, 0)
           = ((⟨2 * ([fun n => n + 1, fun n => 2 * n] : List (Nat → Nat)).length, 0, false⟩,
               ([fun n => n + 1, fun n => 2 * n] : List (Nat → Nat)).foldl (fun v f => f v) 0),
              List.replicate (([fun n => n + 1, fun n => 2 * n] : List (Nat → Nat)).length - 1)
                  false ++ [true])
       ∧ (driveAll (yieldBody [fun x => x, fun x => x, fun x => x] : List (Op Unit Unit))
           (List.replicate 4 ((), 0)) (⟨0, 0, false⟩, ())).2 = [false, false, true, true]) :=
  ⟨List.cons_ne_nil _ _,
   resume_correct [fun n => n + 1, fun n => 2 * n] (List.cons_ne_nil _ _) () 0 0⟩

/-- Claim C2, idempotent termination: after any call that returned true,
every further sequence of calls (with arbitrary environments and elapsed
times, and no external reset) returns true on every call and leaves the
whole state record, including the elapsed-time accumulator, and the
instance variables completely unchanged. -/
theorem terminal_idempotent {E V : Type} (ops : List (Op E V)) (env : E) (d : Rat)
    (ps : ProtoState) (v : V) (h : (protoCall ops env d ps v).2.2 = true)
    (inputs : List (E × Rat)) :
    driveAll ops inputs ((protoCall ops env d ps v).1, (protoCall ops env d ps v).2.1)
      = (((protoCall ops env d ps v).1, (protoCall ops env d ps v).2.1),
         List.replicate inputs.length true) := by
  obtain ⟨hq, hy⟩ := protoCall_true_stuck ops env d ps v h
  exact driveAll_stuck ops _ hq hy inputs _

/-- Witness for C2: the empty body terminates on its first call and two
further calls change nothing and return true. -/
theorem terminal_idempotent_w :
    ((protoCall ([] : List (Op Unit Unit)) () 0 ⟨0, 0, false⟩ ()).2.2 = true)
    ∧ driveAll ([] : List (Op Unit Unit)) [((), 1), ((), 2)]
        ((protoCall ([] : List (Op Unit Unit)) () 0 ⟨0, 0, false⟩ ()).1,
         (protoCall ([] : List (Op Unit Unit)) () 0 ⟨0, 0, false⟩ ()).2.1)
      = (((protoCall ([] : List (Op Unit Unit)) () 0 ⟨0, 0, false⟩ ()).1,
          (protoCall ([] : List (Op Unit Unit)) () 0 ⟨0, 0, false⟩ ()).2.1),
         List.replicate ([((), (1 : Rat)), ((), 2)] : List (Unit × Rat)).length true) :=
  ⟨by decide, terminal_idempotent [] () 0 ⟨0, 0, false⟩ () (by decide) [((), 1), ((), 2)]⟩

/-- Claim C6, per-call setup re-execution: code placed before PROTO_BEGIN
runs exactly once per call, whatever marker the switch dispatches on
(including the terminal one) and whatever the body does afterwards; here
the pre-BEGIN code increments an observation counter the body itself never
touches, and after any single call the counter has gone up by exactly
one. -/
theorem pre_code_every_call {E V : Type} (pre : V → V) (ops : List (Op E V)) (env : E) (d : Rat)
    (posts : List (ProtoState × (V × Nat) → Flow (ProtoState × (V × Nat))))
    (ps : ProtoState) (v : V) (c : Nat) :
    flowCnt (protoFunFull (fun q => (pre q.1, q.2 + 1)) (ops.map liftOp) env d posts ps (v, c))
      = c + 1 := by
  rw [protoFun_posts_dead]
  unfold protoFunFull
  simp only [protoStmts, seqRun, preStmt, beginStmt, switchStmt, retTrueStmt]
  cases hres : resumeAt (ops.map liftOp) env d ({ps with yield := false}).state
      {ps with yield := false} (pre v, c + 1) with
  | next a2 =>
      have h2 := resumeAt_lift_cnt ops env d ({ps with yield := false}).state
        {ps with yield := false} (pre v) (c + 1)
      rw [hres] at h2
      simpa [flowCnt] using h2
  | ret a2 b2 =>
      have h2 := resumeAt_lift_cnt ops env d ({ps with yield := false}).state
        {ps with yield := false} (pre v) (c + 1)
      rw [hres] at h2
      simpa [flowCnt] using h2

/-- Claim C7, dead code after PROTO_END: whatever statements are placed
after the terminal marker's segment, they are never executed: the call's
outcome is identical to the same function with no such statements, from
every state and input. -/
theorem post_end_dead {E V : Type} (pre : V → V) (ops : List (Op E V)) (env : E) (d : Rat)
    (posts : List (ProtoState × V → Flow (ProtoState × V))) (ps : ProtoState) (v : V) :
    protoFunFull pre ops env d posts ps v = protoFunFull pre ops env d [] ps v :=
  protoFun_posts_dead pre ops env d posts ps v

/-- Claim C8, transient suspension flag: PROTO_BEGIN clears the yield flag
before the switch dispatches, so the returned boolean and the entire
resulting state (marker, accumulator, flag) and variables of a call are
identical for both possible values of the flag at call entry. -/
theorem yield_flag_transient {E V : Type} (ops : List (Op E V)) (env : E) (d : Rat)
    (ps : ProtoState) (v : V) (b : Bool) :
    protoCall ops env d {ps with yield := b} v = protoCall ops env d ps v := by
  cases ps; rfl

/-- Claim C10, non-positive sleep duration: a call that reaches
PROTO_SLEEP(t) with t not positive stores t in the accumulator, fails the
for-condition immediately, never polls the clock (the executor for code
reached inside a call takes no elapsed-time input at all), and falls
through to the rest of the body within the same call, with no
suspension. -/
theorem sleep_nonpositive {E V : Type} (t : Rat) (ht : t ≤ 0) (env : E) (n : Nat)
    (rest : List (Op E V)) (i : Nat) (ps : ProtoState) (v : V) :
    runFrom env n (Op.sleep t :: rest) i ps v
      = runFrom env n rest (i + 1) {ps with time := t} v := by
  simp only [runFrom]
  rw [if_neg (not_lt.mpr ht)]

/-- Witness for C10: a zero-duration sleep before a yield falls through to
the yield in the same call. -/
theorem sleep_nonpositive_w :
    ((0 : Rat) ≤ 0)
    ∧ runFrom () 2 ([Op.sleep 0, Op.yld] : List (Op Unit Unit)) 0 ⟨0, 5, false⟩ ()
        = runFrom () 2 ([Op.yld] : List (Op Unit Unit)) (0 + 1)
            {(⟨0, 5, false⟩ : ProtoState) with time := 0} () :=
  ⟨le_refl 0, sleep_nonpositive 0 (le_refl 0) () 2 [Op.yld] 0 ⟨0, 5, false⟩ ()⟩

/-- Claim C3, wait semantics: a PROTO_WAIT whose condition is true on the
call that first reaches it falls through immediately with zero suspensions;
one whose condition is false suspends there; and from a state suspended at
the wait, every further call on which the freshly re-evaluated condition is
false suspends again, changing nothing, while the first call with a true
condition proceeds past the wait within that call.  So a condition first
true on the m-th call that evaluates it yields exactly m-1 suspensions. -/
theorem wait_semantics {E V : Type} (ops : List (Op E V)) (c : E → V → Bool) (i : Nat)
    (hk : i < ops.length) (hop : ops.get ⟨i, hk⟩ = Op.wait c)
    (ps : ProtoState) (hst : ps.state = i + 1) (v : V) (d : Rat)
    (es : List E) (elast : E)
    (hfalse : ∀ e ∈ es, c e v = false) (htrue : c elast v = true) :
    (∀ (env : E) (n : Nat) (rest : List (Op E V)) (j : Nat) (ps1 : ProtoState) (v1 : V),
        c env v1 = true →
        runFrom env n (Op.wait c :: rest) j ps1 v1 = runFrom env n rest (j + 1) ps1 v1)
    ∧ (∀ (env : E) (n : Nat) (rest : List (Op E V)) (j : Nat) (ps1 : ProtoState) (v1 : V),
        c env v1 = false →
        runFrom env n (Op.wait c :: rest) j ps1 v1
          = Flow.ret ({ps1 with yield := true, state := j + 1}, v1) false)
    ∧ driveAll ops (es.map fun e => (e, d)) (ps, v)
        = ((if es.isEmpty then ps else {ps with yield := true}, v),
           List.replicate es.length false)
    ∧ protoCall ops elast d (if es.isEmpty then ps else {ps with yield := true}) v
        = finish (runFrom elast ops.length (ops.drop (i + 1)) (i + 1) {ps with yield := false} v) := by
  refine ⟨?_, ?_, ?_, ?_⟩
  · intro env n rest j ps1 v1 hc
    simp [runFrom, hc]
  · intro env n rest j ps1 v1 hc
    simp [runFrom, hc]
  · exact wait_spin ops c i hk hop d v es ps hst hfalse
  · cases es with
    | nil =>
        show protoCall ops elast d ps v = _
        exact wait_proceed_call ops c i hk hop elast d ps v hst htrue
    | cons e es2 =>
        show protoCall ops elast d {ps with yield := true} v = _
        exact wait_proceed_call ops c i hk hop elast d {ps with yield := true} v hst htrue

/-- Witness for C3: one wait on the condition 2 <= environment, suspended
at its label, driven with environments 0 and 1 (two more suspensions) and
then 3 (proceeds). -/
theorem wait_semantics_w :
    ((0 : Nat) < ([Op.wait (fun (e : Nat) (_ : Unit) => decide (2 ≤ e))] : List (Op Nat Unit)).length)
    ∧ (∀ e ∈ ([0, 1] : List Nat), (fun (e : Nat) (_ : Unit) => decide (2 ≤ e)) e () = false)
    ∧ ((fun (e : Nat) (_ : Unit) => decide (2 ≤ e)) 3 () = true)
    ∧ ((∀ (env : Nat) (n : Nat) (rest : List (Op Nat Unit)) (j : Nat) (ps1 : ProtoState) (v1 : Unit),
          (fun (e : Nat) (_ : Unit) => decide (2 ≤ e)) env v1 = true →
          runFrom env n (Op.wait (fun (e : Nat) (_ : Unit) => decide (2 ≤ e)) :: rest) j ps1 v1
            = runFrom env n rest (j + 1) ps1 v1)
       ∧ (∀ (env : Nat) (n : Nat) (rest : List (Op Nat Unit)) (j : Nat) (ps1 : ProtoState) (v1 : Unit),
          (fun (e : Nat) (_ : Unit) => decide (2 ≤ e)) env v1 = false →
          runFrom env n (Op.wait (fun (e : Nat) (_ : Unit) => decide (2 ≤ e)) :: rest) j ps1 v1
            = Flow.ret ({ps1 with yield := true, state := j + 1}, v1) false)
       ∧ driveAll ([Op.wait (fun (e : Nat) (_ : Unit) => decide (2 ≤ e))] : List (Op Nat Unit))
             (([0, 1] : List Nat).map fun e => (e, (0 : Rat))) (⟨1, 0, true⟩, ())
           = ((if ([0, 1] : List Nat).isEmpty then ⟨1, 0, true⟩
               else {(⟨1, 0, true⟩ : ProtoState) with yield := true}, ()),
              List.replicate ([0, 1] : List Nat).length false)
       ∧ protoCall ([Op.wait (fun (e : Nat) (_ : Unit) => decide (2 ≤ e))] : List (Op Nat Unit)) 3 0
             (if ([0, 1] : List Nat).isEmpty then ⟨1, 0, true⟩
              else {(⟨1, 0, true⟩ : ProtoState) with yield := true}) ()
           = finish (runFrom 3
               ([Op.wait (fun (e : Nat) (_ : Unit) => decide (2 ≤ e))] : List (Op Nat Unit)).length
               (([Op.wait (fun (e : Nat) (_ : Unit) => decide (2 ≤ e))] : List (Op Nat Unit)).drop (0 + 1))
               (0 + 1) {(⟨1, 0, true⟩ : ProtoState) with yield := false} ())) :=
  ⟨by decide, by decide, by decide,
   wait_semantics [Op.wait (fun (e : Nat) (_ : Unit) => decide (2 ≤ e))]
     (fun (e : Nat) (_ : Unit) => decide (2 ≤ e)) 0 (by decide) rfl
     ⟨1, 0, true⟩ rfl () 0 [0, 1] 3 (by decide) (by decide)⟩

/-- Counterexample to claim C4 as stated: for the body consisting of one
PROTO_SLEEP(1) driven from a fresh state (first call enters the sleep and
suspends with the accumulator at 1), a second call with elapsed time 3
completes the sleep, but the accumulator it leaves is -2, the negation of
the residual surplus 3 - 1 = 2 that the claim asserts as the resulting
accumulator value. -/
theorem sleep_surplus_cex :
    ((protoCall ([Op.sleep (1 : Rat)] : List (Op Unit Unit)) () 3
        (protoCall ([Op.sleep (1 : Rat)] : List (Op Unit Unit)) () 0 ⟨0, 0, false⟩ ()).1 ()).2.2
      = true)
    ∧ ((protoCall ([Op.sleep (1 : Rat)] : List (Op Unit Unit)) () 3
        (protoCall ([Op.sleep (1 : Rat)] : List (Op Unit Unit)) () 0 ⟨0, 0, false⟩ ()).1 ()).1.time
      = -2)
    ∧ ((-2 : Rat) ≠ 3 - 1) := by
  have h1 : protoCall ([Op.sleep (1 : Rat)] : List (Op Unit Unit)) () 0 ⟨0, 0, false⟩ ()
      = (⟨1, 1, true⟩, (), false) := by
    show finish (runFrom () 1 [Op.sleep (1 : Rat)] 0 ⟨0, 0, false⟩ ()) = _
    simp only [runFrom]
    rw [if_pos (show (0 : Rat) < 1 by norm_num)]
    rfl
  have h2 : protoCall ([Op.sleep (1 : Rat)] : List (Op Unit Unit)) () 3
      (⟨1, 1, true⟩ : ProtoState) () = (⟨2, 1 - 3, false⟩, (), true) := by
    rw [sleep_proceed_call [Op.sleep (1 : Rat)] 0 1 (by norm_num) rfl () 3 ⟨1, 1, true⟩ () rfl
        (show ¬(0 < (⟨1, 1, true⟩ : ProtoState).time - 3) by norm_num)]
    rfl
  rw [h1]
  refine ⟨by rw [h2], by rw [h2]; norm_num, by norm_num⟩

/-- Claim C4 as amended: driving a sleep of duration t that a call has
entered (accumulator holds t) with non-negative increments whose running
sum first reaches t with the final increment, all earlier polls suspend
(subtracting each increment from the accumulator) and the final poll
proceeds past the sleep within that call; on completion the accumulator
holds the duration minus the total of the applied increments, that is the
negation of the residual surplus (a non-positive value), not the surplus
itself; overshoot is still never carried into a subsequent sleep, because
entering a sleep overwrites the accumulator with the new duration
regardless of its previous value, and a sleep with a positive duration
suspends on the entering call before any poll. -/
theorem sleep_semantics_amended {E V : Type} (ops : List (Op E V)) (i : Nat) (t : Rat)
    (hk : i < ops.length) (hop : ops.get ⟨i, hk⟩ = Op.sleep t)
    (ps : ProtoState) (hst : ps.state = i + 1) (htime : ps.time = t) (v : V)
    (env : E) (ds : List Rat) (dj : Rat)
    (hnn : ∀ x ∈ ds, 0 ≤ x) (hnj : 0 ≤ dj)
    (hmid : ∀ k, 1 ≤ k → k ≤ ds.length → (ds.take k).sum < t)
    (hfin : t ≤ ds.sum + dj) :
    (∀ (env2 : E) (n : Nat) (rest : List (Op E V)) (j : Nat) (ps2 : ProtoState) (v2 : V),
        0 < t → runFrom env2 n (Op.sleep t :: rest) j ps2 v2
          = Flow.ret ({ps2 with time := t, yield := true, state := j + 1}, v2) false)
    ∧ (∀ (env2 : E) (n : Nat) (rest : List (Op E V)) (j : Nat) (ps2 : ProtoState) (v2 : V)
          (x y : Rat),
        runFrom env2 n (Op.sleep t :: rest) j {ps2 with time := x} v2
          = runFrom env2 n (Op.sleep t :: rest) j {ps2 with time := y} v2)
    ∧ driveAll ops (ds.map fun x => (env, x)) (ps, v)
        = ((if ds.isEmpty then ps else {ps with yield := true, time := t - ds.sum}, v),
           List.replicate ds.length false)
    ∧ protoCall ops env dj (if ds.isEmpty then ps else {ps with yield := true, time := t - ds.sum}) v
        = finish (runFrom env ops.length (ops.drop (i + 1)) (i + 1)
            {ps with yield := false, time := t - (ds.sum + dj)} v) := by
  refine ⟨?_, ?_, ?_, ?_⟩
  · intro env2 n rest j ps2 v2 h0
    simp [runFrom, h0]
  · intro env2 n rest j ps2 v2 x y
    rfl
  · have h := sleep_spin ops i t hk hop env v ds ps hst
        (fun k h1 h2 => by rw [htime]; exact hmid k h1 h2)
    rw [h, htime]
  · cases ds with
    | nil =>
        show protoCall ops env dj ps v = _
        have hle : ¬(0 < ps.time - dj) := by
          rw [htime]
          simp only [List.sum_nil] at hfin
          linarith
        rw [sleep_proceed_call ops i t hk hop env dj ps v hst hle]
        have h2 : ({ps with yield := false, time := ps.time - dj} : ProtoState)
            = {ps with yield := false, time := t - (([] : List Rat).sum + dj)} := by
          ext
          · rfl
          · show ps.time - dj = t - (([] : List Rat).sum + dj)
            rw [htime]
            simp
          · rfl
        rw [h2]
    | cons x ds2 =>
        show protoCall ops env dj {ps with yield := true, time := t - (x :: ds2).sum} v = _
        have hle : ¬(0 < ({ps with yield := true, time := t - (x :: ds2).sum} : ProtoState).time - dj) := by
          show ¬(0 < t - (x :: ds2).sum - dj)
          linarith
        rw [sleep_proceed_call ops i t hk hop env dj
            {ps with yield := true, time := t - (x :: ds2).sum} v hst hle]
        have h2 : ({({ps with yield := true, time := t - (x :: ds2).sum} : ProtoState) with
                     yield := false,
                     time := ({ps with yield := true, time := t - (x :: ds2).sum} : ProtoState).time
                               - dj} : ProtoState)
            = {ps with yield := false, time := t - ((x :: ds2).sum + dj)} := by
          ext
          · rfl
          · show t - (x :: ds2).sum - dj = t - ((x :: ds2).sum + dj)
            ring
          · rfl
        rw [h2]

/-- Witness for C4 (amended) at a sleep of duration 5 suspended at its
label, polled with increments 2, 2 (both suspend) and then 3 (proceeds,
leaving the accumulator at 5 - 7 = -2). -/
theorem sleep_semantics_amended_w :
    ((0 : Nat) < ([Op.sleep (5 : Rat)] : List (Op Unit Unit)).length)
    ∧ (∀ x ∈ ([2, 2] : List Rat), 0 ≤ x)
    ∧ ((0 : Rat) ≤ 3)
    ∧ (∀ k, 1 ≤ k → k ≤ ([2, 2] : List Rat).length → (([2, 2] : List Rat).take k).sum < 5)
    ∧ ((5 : Rat) ≤ ([2, 2] : List Rat).sum + 3)
    ∧ ((∀ (env2 : Unit) (n : Nat) (rest : List (Op Unit Unit)) (j : Nat) (ps2 : ProtoState)
          (v2 : Unit),
          0 < (5 : Rat) → runFrom env2 n (Op.sleep 5 :: rest) j ps2 v2
            = Flow.ret ({ps2 with time := 5, yield := true, state := j + 1}, v2) false)
       ∧ (∀ (env2 : Unit) (n : Nat) (rest : List (Op Unit Unit)) (j : Nat) (ps2 : ProtoState)
            (v2 : Unit) (x y : Rat),
          runFrom env2 n (Op.sleep 5 :: rest) j {ps2 with time := x} v2
            = runFrom env2 n (Op.sleep 5 :: rest) j {ps2 with time := y} v2)
       ∧ driveAll ([Op.sleep (5 : Rat)] : List (Op Unit Unit))
             (([2, 2] : List Rat).map fun x => ((), x)) (⟨1, 5, true⟩, ())
           = ((if ([2, 2] : List Rat).isEmpty then ⟨1, 5, true⟩
               else (⟨1, 5 - ([2, 2] : List Rat).sum, true⟩ : ProtoState), ()),
              List.replicate ([2, 2] : List Rat).length false)
       ∧ protoCall ([Op.sleep (5 : Rat)] : List (Op Unit Unit)) () 3
             (if ([2, 2] : List Rat).isEmpty then ⟨1, 5, true⟩
              else (⟨1, 5 - ([2, 2] : List Rat).sum, true⟩ : ProtoState)) ()
           = finish (runFrom () ([Op.sleep (5 : Rat)] : List (Op Unit Unit)).length
               (([Op.sleep (5 : Rat)] : List (Op Unit Unit)).drop (0 + 1)) (0 + 1)
               (⟨1, 5 - (([2, 2] : List Rat).sum + 3), false⟩ : ProtoState) ())) :=
  ⟨by decide, by norm_num, by norm_num,
   by
     intro k h1 h2
     simp only [List.length_cons, List.length_nil] at h2
     interval_cases k <;>
       norm_num [List.take_succ_cons, List.take_zero, List.take_nil, List.sum_cons, List.sum_nil],
   by norm_num [List.sum_cons, List.sum_nil],
   sleep_semantics_amended [Op.sleep 5] 0 5 (by decide) rfl ⟨1, 5, true⟩ rfl rfl ()
     () [2, 2] 3 (by norm_num) (by norm_num)
     (by
       intro k h1 h2
       simp only [List.length_cons, List.length_nil] at h2
       interval_cases k <;>
         norm_num [List.take_succ_cons, List.take_zero, List.take_nil, List.sum_cons, List.sum_nil])
     (by norm_num [List.sum_cons, List.sum_nil])⟩

/-- Claim C9, construction without initial variables: constructing with a
null variables pointer allocates nothing whatever the size argument and
leaves the vars pointer null; constructing with a pointer allocates an
owned buffer of exactly the given size at the previous allocation frontier,
copies the source bytes into it, and touches no previously allocated
byte. -/
theorem construct_variables {F : Type} (f : F) (m : Heap) (n p : Nat)
    (hsrc : p + n ≤ m.next) :
    (∀ sz, ProtoThread.construct f none sz m = ({function := f, vars := none}, m))
    ∧ (ProtoThread.construct f (some p) n m).1.vars = some m.next
    ∧ (ProtoThread.construct f (some p) n m).2.next = m.next + n
    ∧ readBytes (ProtoThread.construct f (some p) n m).2 m.next n = readBytes m p n
    ∧ (∀ x, x < m.next → (ProtoThread.construct f (some p) n m).2.store x = m.store x) := by
  refine ⟨fun sz => rfl, rfl, ?_, ?_, ?_⟩
  · show (copyBytes {m with next := m.next + n} m.next p n).next = m.next + n
    rw [copyBytes_next]
  · show readBytes (copyBytes {m with next := m.next + n} m.next p n) m.next n = readBytes m p n
    rw [readBytes_copy]
    rfl
  · intro x hx
    show (copyBytes {m with next := m.next + n} m.next p n).store x = m.store x
    rw [copyBytes_store, if_neg (by omega)]

/-- Witness for C9 on a heap holding the two bytes 7, 9 at addresses 0, 1
with allocation frontier 2. -/
theorem construct_variables_w :
    ((0 : Nat) + 2 ≤ (⟨2, fun x => if x = 0 then 7 else if x = 1 then 9 else 0⟩ : Heap).next)
    ∧ ((∀ sz, ProtoThread.construct 0 none sz
          (⟨2, fun x => if x = 0 then 7 else if x = 1 then 9 else 0⟩ : Heap)
          = ({function := 0, vars := none},
             (⟨2, fun x => if x = 0 then 7 else if x = 1 then 9 else 0⟩ : Heap)))
       ∧ (ProtoThread.construct 0 (some 0) 2
            (⟨2, fun x => if x = 0 then 7 else if x = 1 then 9 else 0⟩ : Heap)).1.vars
          = some (⟨2, fun x => if x = 0 then 7 else if x = 1 then 9 else 0⟩ : Heap).next
       ∧ (ProtoThread.construct 0 (some 0) 2
            (⟨2, fun x => if x = 0 then 7 else if x = 1 then 9 else 0⟩ : Heap)).2.next
          = (⟨2, fun x => if x = 0 then 7 else if x = 1 then 9 else 0⟩ : Heap).next + 2
       ∧ readBytes (ProtoThread.construct 0 (some 0) 2
            (⟨2, fun x => if x = 0 then 7 else if x = 1 then 9 else 0⟩ : Heap)).2
            (⟨2, fun x => if x = 0 then 7 else if x = 1 then 9 else 0⟩ : Heap).next 2
          = readBytes (⟨2, fun x => if x = 0 then 7 else if x = 1 then 9 else 0⟩ : Heap) 0 2
       ∧ (∀ x, x < (⟨2, fun x => if x = 0 then 7 else if x = 1 then 9 else 0⟩ : Heap).next →
            (ProtoThread.construct 0 (some 0) 2
              (⟨2, fun x => if x = 0 then 7 else if x = 1 then 9 else 0⟩ : Heap)).2.store x
              = (⟨2, fun x => if x = 0 then 7 else if x = 1 then 9 else 0⟩ : Heap).store x)) :=
  ⟨by decide,
   construct_variables (0 : Nat) ⟨2, fun x => if x = 0 then 7 else if x = 1 then 9 else 0⟩
     2 0 (by decide)⟩

/-- Claim C5, instance isolation via deep copy: constructing two wrapper
objects from the same function body and the same source bytes gives each
its own freshly allocated buffer (at the successive allocation frontiers,
both distinct from the caller's buffer), both holding copies of the
original bytes; writing a byte through the first object's buffer leaves
the second object's buffer and the caller's buffer holding the original
bytes; and two instance states driven through one body in any interleaving
evolve exactly as each does alone on its own subsequence of ticks, each
result sequence depending only on its own calls. -/
theorem instance_isolation {F E V : Type} (f g : F) (m0 : Heap) (p n : Nat)
    (hsrc : p + n ≤ m0.next)
    (ops : List (Op E V)) (sched : List (Bool × E × Rat)) (sa sb : ProtoState × V) :
    ((ProtoThread.construct f (some p) n m0).1.vars = some m0.next)
    ∧ ((ProtoThread.construct g (some p) n (ProtoThread.construct f (some p) n m0).2).1.vars
        = some (m0.next + n))
    ∧ readBytes (ProtoThread.construct g (some p) n (ProtoThread.construct f (some p) n m0).2).2
        m0.next n = readBytes m0 p n
    ∧ readBytes (ProtoThread.construct g (some p) n (ProtoThread.construct f (some p) n m0).2).2
        (m0.next + n) n = readBytes m0 p n
    ∧ (∀ j bb, j < n →
        readBytes (((ProtoThread.construct g (some p) n
              (ProtoThread.construct f (some p) n m0).2).2).writeByte (m0.next + j) bb)
            (m0.next + n) n = readBytes m0 p n
        ∧ readBytes (((ProtoThread.construct g (some p) n
              (ProtoThread.construct f (some p) n m0).2).2).writeByte (m0.next + j) bb)
            p n = readBytes m0 p n)
    ∧ interleaved ops sched sa sb
        = (((driveAll ops (schedOf true sched) sa).1, (driveAll ops (schedOf false sched) sb).1),
           (driveAll ops (schedOf true sched) sa).2, (driveAll ops (schedOf false sched) sb).2) := by
  have hm1 : (ProtoThread.construct f (some p) n m0).2
      = copyBytes {m0 with next := m0.next + n} m0.next p n := rfl
  have hnext1 : (ProtoThread.construct f (some p) n m0).2.next = m0.next + n := by
    rw [hm1, copyBytes_next]
  have hm2 : (ProtoThread.construct g (some p) n (ProtoThread.construct f (some p) n m0).2).2
      = copyBytes {(ProtoThread.construct f (some p) n m0).2 with
            next := (ProtoThread.construct f (some p) n m0).2.next + n}
          (ProtoThread.construct f (some p) n m0).2.next p n := rfl
  -- bytes of the first copy are the source bytes
  have hr1 : readBytes (ProtoThread.construct f (some p) n m0).2 m0.next n
      = readBytes m0 p n := by
    rw [hm1, readBytes_copy]
    rfl
  -- bytes of the caller's buffer are untouched by the first copy
  have hr1p : readBytes (ProtoThread.construct f (some p) n m0).2 p n = readBytes m0 p n := by
    rw [hm1, readBytes_copy_outside _ _ _ _ _ _ (Or.inl hsrc)]
    rfl
  -- the first copy is untouched by the second copy
  have hcopy1 : readBytes (ProtoThread.construct g (some p) n
        (ProtoThread.construct f (some p) n m0).2).2 m0.next n = readBytes m0 p n := by
    rw [hm2, readBytes_copy_outside _ _ _ _ _ _
        (Or.inl (show m0.next + n ≤ (ProtoThread.construct f (some p) n m0).2.next by
          rw [hnext1]))]
    exact hr1
  -- the second copy also holds the source bytes
  have hcopy2 : readBytes (ProtoThread.construct g (some p) n
        (ProtoThread.construct f (some p) n m0).2).2 (m0.next + n) n = readBytes m0 p n := by
    rw [← hnext1, hm2, readBytes_copy]
    exact hr1p
  -- the caller's buffer is untouched by the second copy
  have hm2p : readBytes (ProtoThread.construct g (some p) n
        (ProtoThread.construct f (some p) n m0).2).2 p n = readBytes m0 p n := by
    rw [hm2, readBytes_copy_outside _ _ _ _ _ _
        (Or.inl (show p + n ≤ (ProtoThread.construct f (some p) n m0).2.next by
          rw [hnext1]; omega))]
    exact hr1p
  refine ⟨rfl, ?_, hcopy1, hcopy2, ?_, interleaved_indep ops sched sa sb⟩
  · show some (ProtoThread.construct f (some p) n m0).2.next = some (m0.next + n)
    rw [hnext1]
  · intro j bb hj
    constructor
    · rw [readBytes_write_outside _ _ _ _ _ (Or.inl (by omega))]
      exact hcopy2
    · rw [readBytes_write_outside _ _ _ _ _ (Or.inr (by omega))]
      exact hm2p

/-- Witness for C5 on the four source bytes 1, 2, 3, 4 and a one-yield
body driven with one tick for each instance. -/
theorem instance_isolation_w :
    ((0 : Nat) + 4 ≤ heap4.next)
    ∧ (((ProtoThread.construct (0 : Nat) (some 0) 4 heap4).1.vars = some heap4.next)
       ∧ ((ProtoThread.construct 1 (some 0) 4
             (ProtoThread.construct (0 : Nat) (some 0) 4 heap4).2).1.vars
           = some (heap4.next + 4))
       ∧ readBytes (ProtoThread.construct 1 (some 0) 4
             (ProtoThread.construct (0 : Nat) (some 0) 4 heap4).2).2 heap4.next 4
           = readBytes heap4 0 4
       ∧ readBytes (ProtoThread.construct 1 (some 0) 4
             (ProtoThread.construct (0 : Nat) (some 0) 4 heap4).2).2 (heap4.next + 4) 4
           = readBytes heap4 0 4
       ∧ (∀ j bb, j < 4 →
           readBytes (((ProtoThread.construct 1 (some 0) 4
                 (ProtoThread.construct (0 : Nat) (some 0) 4 heap4).2).2).writeByte
                 (heap4.next + j) bb) (heap4.next + 4) 4 = readBytes heap4 0 4
           ∧ readBytes (((ProtoThread.construct 1 (some 0) 4
                 (ProtoThread.construct (0 : Nat) (some 0) 4 heap4).2).2).writeByte
                 (heap4.next + j) bb) 0 4 = readBytes heap4 0 4)
       ∧ interleaved ([Op.yld] : List (Op Unit Unit)) [(true, (), 0), (false, (), 0)]
             (⟨0, 0, false⟩, ()) (⟨0, 0, false⟩, ())
           = (((driveAll [Op.yld] (schedOf true [(true, (), 0), (false, (), 0)])
                  (⟨0, 0, false⟩, ())).1,
               (driveAll [Op.yld] (schedOf false [(true, (), 0), (false, (), 0)])
                  (⟨0, 0, false⟩, ())).1),
              (driveAll [Op.yld] (schedOf true [(true, (), 0), (false, (), 0)])
                 (⟨0, 0, false⟩, ())).2,
              (driveAll [Op.yld] (schedOf false [(true, (), 0), (false, (), 0)])
                 (⟨0, 0, false⟩, ())).2)) :=
  ⟨by decide,
   instance_isolation (0 : Nat) 1 heap4 0 4 (by decide) [Op.yld]
     [(true, (), 0), (false, (), 0)] (⟨0, 0, false⟩, ()) (⟨0, 0, false⟩, ())⟩

end Proto
